import Mathlib

/-!
Verification of the command-pattern undo/redo manager from
`src/7_smart_pointers/smart_pointer_examples.cpp` (Example 6).

The C++ code has an abstract `Command` with two concrete variants,
`AddCommand` and `MultiplyCommand`, both mutating an external `int&`
target, and a `CommandManager` holding two stacks
(`undoStack`, `redoStack`) of owned commands.  The shallow embedding
makes the mutation explicit: a command acts on the target value as a
function `Int → Int`, and a manager state is the target value together
with the two stacks (head of each list = top of the C++ `std::stack`).
C++ `int` division truncates toward zero, which is `Int.tdiv`
(division by zero is undefined behaviour in C++; `Int.tdiv` returns 0
there, standing in for the unguarded `value /= factor`).
-/

/-- Model of the `Command` hierarchy: `AddCommand` holds `amount`,
`MultiplyCommand` holds `factor`.  The reference to the external target
is made explicit by passing the target value to `execute`/`undo`. -/
inductive Command where
  | addCommand (amount : Int)
  | multiplyCommand (factor : Int)
deriving DecidableEq

/-- Embedding of `Command::execute`: `AddCommand::execute` does
`value += amount`; `MultiplyCommand::execute` does `value *= factor`. -/
def Command.execute : Command → Int → Int
  | .addCommand a, v => v + a
  | .multiplyCommand f, v => v * f

/-- Embedding of `Command::undo`: `AddCommand::undo` does
`value -= amount`; `MultiplyCommand::undo` does `value /= factor`
(C++ truncating division, unguarded against `factor = 0`). -/
def Command.undo : Command → Int → Int
  | .addCommand a, v => v - a
  | .multiplyCommand f, v => Int.tdiv v f

/-- True unless the command is a `MultiplyCommand` with factor 0,
the one case where `Command.undo` would divide by zero in C++. -/
def Command.factorNonzero : Command → Bool
  | .addCommand _ => true
  | .multiplyCommand f => f != 0

/-- State of a `CommandManager` together with the external target value
the stored commands reference.  List head = stack top. -/
structure CommandManager where
  value : Int
  undoStack : List Command
  redoStack : List Command
deriving DecidableEq

/-- Embedding of `CommandManager::executeCommand`: runs `cmd->execute()`,
pushes `cmd` on `undoStack`, then pops `redoStack` until empty. -/
def CommandManager.executeCommand (s : CommandManager) (cmd : Command) : CommandManager :=
  { value := cmd.execute s.value
    undoStack := cmd :: s.undoStack
    redoStack := [] }

/-- Embedding of `CommandManager::undo`: if `undoStack` is nonempty, pop
its top, run `cmd->undo()`, push the command on `redoStack`; otherwise
only print "Nothing to undo" (state unchanged). -/
def CommandManager.undo (s : CommandManager) : CommandManager :=
  match s.undoStack with
  | [] => s
  | cmd :: rest =>
      { value := cmd.undo s.value
        undoStack := rest
        redoStack := cmd :: s.redoStack }

/-- Embedding of `CommandManager::redo`: if `redoStack` is nonempty, pop
its top, run `cmd->execute()`, push the command on `undoStack`;
otherwise only print "Nothing to redo" (state unchanged). -/
def CommandManager.redo (s : CommandManager) : CommandManager :=
  match s.redoStack with
  | [] => s
  | cmd :: rest =>
      { value := cmd.execute s.value
        undoStack := cmd :: s.undoStack
        redoStack := rest }

/-- A sequence of `executeCommand` calls, in order. -/
def CommandManager.runAll (s : CommandManager) (cmds : List Command) : CommandManager :=
  cmds.foldl CommandManager.executeCommand s

/-- Forward effect of a list of commands on the target value, in order. -/
def applyAll (cmds : List Command) (v : Int) : Int :=
  cmds.foldl (fun x c => c.execute x) v

/-- Effect of the `undo` bodies of a list of commands on the target
value, applied in list order. -/
def undoAll (cmds : List Command) (v : Int) : Int :=
  cmds.foldl (fun x c => c.undo x) v

/-- Number of commands held by the manager across both stacks. -/
def totalCommands (s : CommandManager) : Nat :=
  s.undoStack.length + s.redoStack.length

/-- Guarded truncating division: `none` exactly when the divisor is
zero, the case that is undefined behaviour for the C++ `/=`. -/
def checkedDiv (a b : Int) : Option Int :=
  if b = 0 then none else some (Int.tdiv a b)

/-- Fault-aware embedding of `Command::undo`: identical to
`Command.undo` except that the division-by-zero case of
`MultiplyCommand::undo` (undefined behaviour in C++) is represented as
`none` instead of `Int.tdiv`'s defined junk result. -/
def Command.undoChecked : Command → Int → Option Int
  | .addCommand a, v => some (v - a)
  | .multiplyCommand f, v => checkedDiv v f

/-- Fault-aware embedding of `CommandManager::undo`: the empty branch is
the usual no-op, and the nonempty branch faults (returns `none`)
exactly when the popped command's undo body would divide by zero. -/
def CommandManager.undoChecked (s : CommandManager) : Option CommandManager :=
  match s.undoStack with
  | [] => some s
  | cmd :: rest =>
      (cmd.undoChecked s.value).map fun w => ⟨w, rest, cmd :: s.redoStack⟩

/-- Iterated fault-aware undo: `n` consecutive `undo()` calls, faulting
as soon as one of them divides by zero. -/
def CommandManager.undoCheckedN : Nat → CommandManager → Option CommandManager
  | 0, s => some s
  | n + 1, s => s.undoChecked.bind (CommandManager.undoCheckedN n)

/-- Start of the Example 6 demo scenario of the spec: value 10, fresh manager. -/
def demoStart : CommandManager := ⟨10, [], []⟩

/-- State after `executeCommand(AddCommand(value, 5))`. -/
def demoS1 : CommandManager := demoStart.executeCommand (.addCommand 5)

/-- State after `executeCommand(MultiplyCommand(value, 2))`. -/
def demoS2 : CommandManager := demoS1.executeCommand (.multiplyCommand 2)

/-- State after `executeCommand(AddCommand(value, 10))`. -/
def demoS3 : CommandManager := demoS2.executeCommand (.addCommand 10)

/-- State after the first `undo()`. -/
def demoS4 : CommandManager := demoS3.undo

/-- State after the second `undo()`. -/
def demoS5 : CommandManager := demoS4.undo

/-- State after the `redo()`. -/
def demoS6 : CommandManager := demoS5.redo

/-- State after `executeCommand(AddCommand(value, 1))`. -/
def demoS7 : CommandManager := demoS6.executeCommand (.addCommand 1)

/-- Claim C3: `executeCommand` runs the command, pushes it on
`undoStack` and empties `redoStack`, so a `redo` right after any
`executeCommand` is a no-op; `undo` only moves its popped command onto
`redoStack` and `redo` moves its popped command onto `undoStack`, so
`executeCommand` is the only operation that drops commands from
`redoStack` without moving them to `undoStack`. -/
theorem executeCommand_clears_redoStack (s : CommandManager) (cmd c : Command)
    (v : Int) (us rs : List Command) :
    s.executeCommand cmd = ⟨cmd.execute s.value, cmd :: s.undoStack, []⟩ ∧
    (s.executeCommand cmd).redo = s.executeCommand cmd ∧
    CommandManager.undo ⟨v, c :: us, rs⟩ = ⟨c.undo v, us, c :: rs⟩ ∧
    CommandManager.undo ⟨v, [], rs⟩ = ⟨v, [], rs⟩ ∧
    CommandManager.redo ⟨v, us, c :: rs⟩ = ⟨c.execute v, c :: us, rs⟩ ∧
    CommandManager.redo ⟨v, us, []⟩ = ⟨v, us, []⟩ :=
  ⟨rfl, rfl, rfl, rfl, rfl, rfl⟩

/-- Claim C4: the concrete spec scenario from value 10: add 5 gives 15,
multiply by 2 gives 30, add 10 gives 40, two undos give 15, one redo
gives 30, executing `AddCommand(1)` gives 31, and a further `redo` is a
no-op because the redo entry for `AddCommand(10)` was discarded. -/
theorem command_demo_scenario :
    demoS1.value = 15 ∧ demoS2.value = 30 ∧ demoS3.value = 40 ∧
    demoS4.value = 30 ∧ demoS5.value = 15 ∧ demoS6.value = 30 ∧
    demoS7.value = 31 ∧ demoS7.redo = demoS7 := by
  decide

/-- Claim C6: `undo()` on a manager with an empty `undoStack` (in
particular a fresh manager) leaves the value and both stacks unchanged;
no exception is modelled because the C++ branch only prints. -/
theorem undo_empty_noop (v : Int) (rs : List Command) :
    CommandManager.undo ⟨v, [], rs⟩ = ⟨v, [], rs⟩ :=
  rfl

/-- Claim C7: `redo()` on a manager with an empty `redoStack` leaves the
value and both stacks unchanged; the C++ branch only prints. -/
theorem redo_empty_noop (v : Int) (us : List Command) :
    CommandManager.redo ⟨v, us, []⟩ = ⟨v, us, []⟩ :=
  rfl

/-- Claim C8: with a nonempty `undoStack`, `undo` reverses exactly the
top command and moves it to `redoStack`; with a nonempty `redoStack`,
`redo` re-applies exactly the top command and moves it to `undoStack`:
LIFO discipline on both stacks. -/
theorem undo_redo_lifo_top (v : Int) (c : Command) (us rs : List Command) :
    CommandManager.undo ⟨v, c :: us, rs⟩ = ⟨c.undo v, us, c :: rs⟩ ∧
    CommandManager.redo ⟨v, us, c :: rs⟩ = ⟨c.execute v, c :: us, rs⟩ :=
  ⟨rfl, rfl⟩

/-- Claim C10: `undo` and `redo` preserve the total number of commands
held (one command moves between the stacks, or nothing happens), while
`executeCommand` leaves exactly the new undo stack: old `undoStack`
plus the new command, and nothing in `redoStack`. -/
theorem undo_redo_preserve_total_commands (s : CommandManager) (c : Command) :
    totalCommands s.undo = totalCommands s ∧
    totalCommands s.redo = totalCommands s ∧
    totalCommands (s.executeCommand c) = s.undoStack.length + 1 := by
  obtain ⟨v, us, rs⟩ := s
  refine ⟨?_, ?_, ?_⟩
  · cases us <;> simp [CommandManager.undo, totalCommands] <;> omega
  · cases rs <;> simp [CommandManager.redo, totalCommands] <;> omega
  · simp [CommandManager.executeCommand, totalCommands]

/-- For a command whose factor is not zero, `undo` right after `execute`
restores the previous value. -/
theorem Command.undo_execute_of_factorNonzero (c : Command) (v : Int)
    (h : c.factorNonzero = true) : c.undo (c.execute v) = v := by
  cases c with
  | addCommand a => simp [Command.execute, Command.undo]
  | multiplyCommand f =>
      have hf : f ≠ 0 := by simpa [Command.factorNonzero] using h
      simp [Command.execute, Command.undo, Int.mul_tdiv_cancel v hf]

/-- Running a list of commands from a state with empty `redoStack`
computes the folded value, stacks the commands in reverse order on
`undoStack`, and leaves `redoStack` empty. -/
theorem runAll_closed (cmds : List Command) (v : Int) (us : List Command) :
    CommandManager.runAll ⟨v, us, []⟩ cmds = ⟨applyAll cmds v, cmds.reverse ++ us, []⟩ := by
  induction cmds generalizing v us with
  | nil => simp [CommandManager.runAll, applyAll]
  | cons c cs ih =>
      have h1 : CommandManager.runAll ⟨v, us, []⟩ (c :: cs)
          = CommandManager.runAll ⟨c.execute v, c :: us, []⟩ cs := rfl
      rw [h1, ih]
      simp [applyAll]

/-- Undoing as many times as a prefix `lr` of the undo stack pops that
prefix, pushes it reversed onto the redo stack, and folds the undo
bodies over the value. -/
theorem iterate_undo_closed (lr : List Command) (v : Int) (us rs : List Command) :
    CommandManager.undo^[lr.length] ⟨v, lr ++ us, rs⟩ = ⟨undoAll lr v, us, lr.reverse ++ rs⟩ := by
  induction lr generalizing v rs with
  | nil => simp [undoAll]
  | cons c cs ih =>
      rw [List.length_cons, Function.iterate_succ_apply]
      have h1 : CommandManager.undo ⟨v, (c :: cs) ++ us, rs⟩ = ⟨c.undo v, cs ++ us, c :: rs⟩ := rfl
      rw [h1, ih]
      simp [undoAll]

/-- Redoing as many times as a prefix `l` of the redo stack pops that
prefix, pushes it reversed onto the undo stack, and folds the forward
executes over the value. -/
theorem iterate_redo_closed (l : List Command) (v : Int) (us rs : List Command) :
    CommandManager.redo^[l.length] ⟨v, us, l ++ rs⟩ = ⟨applyAll l v, l.reverse ++ us, rs⟩ := by
  induction l generalizing v us with
  | nil => simp [applyAll]
  | cons c cs ih =>
      rw [List.length_cons, Function.iterate_succ_apply]
      have h1 : CommandManager.redo ⟨v, us, (c :: cs) ++ rs⟩ = ⟨c.execute v, c :: us, cs ++ rs⟩ := rfl
      rw [h1, ih]
      simp [applyAll]

/-- Forward execution distributes over list append. -/
theorem applyAll_append (l l' : List Command) (v : Int) :
    applyAll (l ++ l') v = applyAll l' (applyAll l v) := by
  simp [applyAll, List.foldl_append]

/-- Undoing the reversed list of a just-executed list restores the value
as soon as every factor is nonzero. -/
theorem undoAll_applyAll_reverse (rl : List Command) (v : Int)
    (h : ∀ c ∈ rl, c.factorNonzero = true) :
    undoAll rl (applyAll rl.reverse v) = v := by
  induction rl generalizing v with
  | nil => simp [undoAll, applyAll]
  | cons c cs ih =>
      have hc : c.factorNonzero = true := h c (by simp)
      have hcs : ∀ x ∈ cs, x.factorNonzero = true := fun x hx => h x (by simp [hx])
      have h1 : applyAll ((c :: cs).reverse) v = c.execute (applyAll cs.reverse v) := by
        simp [applyAll_append, applyAll]
      have h2 : ∀ w : Int, undoAll (c :: cs) w = undoAll cs (c.undo w) := fun w => rfl
      rw [h1, h2, Command.undo_execute_of_factorNonzero c _ hc, ih _ hcs]

/-- Re-executing a block after undoing it lands back on the value the
original execution produced, even when a zero factor made the undo
lossy: the re-execution of that same multiplication absorbs the loss. -/
theorem applyAll_undoAll_applyAll (rl : List Command) (v : Int) :
    applyAll rl.reverse (undoAll rl (applyAll rl.reverse v)) = applyAll rl.reverse v := by
  induction rl generalizing v with
  | nil => simp [undoAll, applyAll]
  | cons c cs ih =>
      have h1 : ∀ w : Int, applyAll ((c :: cs).reverse) w = c.execute (applyAll cs.reverse w) := by
        intro w
        simp [applyAll_append, applyAll]
      simp only [h1]
      have h2 : ∀ w : Int, undoAll (c :: cs) w = undoAll cs (c.undo w) := fun w => rfl
      simp only [h2]
      by_cases hc : c.factorNonzero = true
      · rw [Command.undo_execute_of_factorNonzero c _ hc, ih]
      · cases c with
        | addCommand a => exact absurd rfl hc
        | multiplyCommand f =>
            have hf : f = 0 := by
              by_contra hf
              exact hc (by simp [Command.factorNonzero, hf])
            subst hf
            simp [Command.execute]

/-- Claim C1 counterexample: with start value 10 and the single command
`MultiplyCommand(0)`, executing and then undoing once does not restore
10 (the C++ undo divides by zero; the embedding yields 0). -/
theorem undo_sequence_mul_zero_not_restored :
    (CommandManager.undo^[([Command.multiplyCommand 0] : List Command).length]
        (CommandManager.runAll ⟨10, [], []⟩ [Command.multiplyCommand 0])).value ≠ 10 := by
  decide

/-- Claim C1 (amended): when no command is a `MultiplyCommand` with
factor 0, executing any sequence of n commands from start value V0 and
then calling `undo()` n times restores the target to exactly V0. -/
theorem undo_sequence_restores_initial (cmds : List Command) (V0 : Int)
    (h : cmds.all Command.factorNonzero = true) :
    (CommandManager.undo^[cmds.length]
        (CommandManager.runAll ⟨V0, [], []⟩ cmds)).value = V0 := by
  have hall : ∀ c ∈ cmds, c.factorNonzero = true := List.all_eq_true.mp h
  rw [runAll_closed]
  rw [show cmds.length = cmds.reverse.length from (List.length_reverse cmds).symm]
  rw [iterate_undo_closed cmds.reverse (applyAll cmds V0) [] []]
  have h2 := undoAll_applyAll_reverse cmds.reverse V0
    (fun c hc => hall c (List.mem_reverse.mp hc))
  rw [List.reverse_reverse] at h2
  exact h2

/-- Witness for C1 at the concrete sequence [Add 5, Multiply 2] and
start value 10. -/
theorem undo_sequence_restores_initial_witness :
    (([Command.addCommand 5, Command.multiplyCommand 2] : List Command).all
        Command.factorNonzero = true) ∧
    (CommandManager.undo^[([Command.addCommand 5, Command.multiplyCommand 2] :
          List Command).length]
        (CommandManager.runAll ⟨10, [], []⟩
          [Command.addCommand 5, Command.multiplyCommand 2])).value = 10 :=
  ⟨by decide, undo_sequence_restores_initial
    [Command.addCommand 5, Command.multiplyCommand 2] 10 (by decide)⟩

/-- In the total model (where `Int.tdiv`'s `/0 = 0` stands in for the
C++ division-by-zero), after n executes, m undos and m redos (m ≤ n)
the target value equals the value right after the n executes. -/
theorem roundtrip_value_of_runAll (cmds : List Command) (m : Nat) (V0 : Int)
    (h : m ≤ cmds.length) :
    (CommandManager.redo^[m] (CommandManager.undo^[m]
        (CommandManager.runAll ⟨V0, [], []⟩ cmds))).value
      = (CommandManager.runAll ⟨V0, [], []⟩ cmds).value := by
  rw [runAll_closed, List.append_nil]
  set t := cmds.take (cmds.length - m) with ht
  set d := cmds.drop (cmds.length - m) with hd
  have htd : t ++ d = cmds := List.take_append_drop _ cmds
  have hdl : d.length = m := by
    rw [hd, List.length_drop]
    omega
  have hrev : cmds.reverse = d.reverse ++ t.reverse := by
    conv_lhs => rw [← htd]
    rw [List.reverse_append]
  rw [hrev]
  have hu := iterate_undo_closed d.reverse (applyAll cmds V0) t.reverse []
  rw [List.length_reverse, hdl, List.reverse_reverse, List.append_nil] at hu
  rw [hu]
  have hr := iterate_redo_closed d (undoAll d.reverse (applyAll cmds V0)) t.reverse []
  rw [hdl, List.append_nil] at hr
  rw [hr]
  show applyAll d (undoAll d.reverse (applyAll cmds V0)) = applyAll cmds V0
  have hsplit : applyAll cmds V0 = applyAll d (applyAll t V0) := by
    conv_lhs => rw [← htd]
    rw [applyAll_append]
  rw [hsplit]
  have hheal := applyAll_undoAll_applyAll d.reverse (applyAll t V0)
  rw [List.reverse_reverse] at hheal
  exact hheal

/-- On a state whose whole undo stack has nonzero factors, the
fault-aware iterated undo never divides by zero and agrees with the
total model's iterated undo. -/
theorem undoCheckedN_eq_iterate (m : Nat) (s : CommandManager)
    (h : s.undoStack.all Command.factorNonzero = true) :
    CommandManager.undoCheckedN m s = some (CommandManager.undo^[m] s) := by
  induction m generalizing s with
  | zero => simp [CommandManager.undoCheckedN]
  | succ n ih =>
      rw [Function.iterate_succ_apply]
      obtain ⟨v, us, rs⟩ := s
      cases us with
      | nil =>
          have h1 : CommandManager.undoChecked ⟨v, [], rs⟩ = some ⟨v, [], rs⟩ := rfl
          have h2 : CommandManager.undo ⟨v, [], rs⟩ = ⟨v, [], rs⟩ := rfl
          rw [CommandManager.undoCheckedN, h1, h2, Option.some_bind]
          exact ih _ h
      | cons c rest =>
          rw [List.all_cons, Bool.and_eq_true] at h
          have h1 : CommandManager.undoChecked ⟨v, c :: rest, rs⟩
              = some ⟨c.undo v, rest, c :: rs⟩ := by
            cases c with
            | addCommand a => rfl
            | multiplyCommand f =>
                have hf : f ≠ 0 := by simpa [Command.factorNonzero] using h.1
                simp [CommandManager.undoChecked, Command.undoChecked, checkedDiv, hf,
                  Command.undo]
          have h2 : CommandManager.undo ⟨v, c :: rest, rs⟩
              = ⟨c.undo v, rest, c :: rs⟩ := rfl
          rw [CommandManager.undoCheckedN, h1, h2, Option.some_bind]
          exact ih _ h.2

/-- Claim C2 counterexample: with start value 10, the single command
`MultiplyCommand(0)` and m = n = 1, the one undo of the roundtrip
divides by zero (undefined behaviour in C++, `none` in the fault-aware
model), so the value after the redo does not equal the value after the
execute. -/
theorem undo_redo_roundtrip_mul_zero_faults :
    (CommandManager.undoCheckedN 1
        (CommandManager.runAll ⟨10, [], []⟩ [Command.multiplyCommand 0])).map
        (fun s => (CommandManager.redo^[1] s).value)
      ≠ some (CommandManager.runAll ⟨10, [], []⟩
          [Command.multiplyCommand 0]).value := by
  decide

/-- Claim C2 (amended): for every sequence of n executes in which every
`MultiplyCommand` has a nonzero factor and every m ≤ n, the m undos all
complete without a division fault and the value after the m redos
equals the value right after the n executes. -/
theorem undo_redo_checked_roundtrip_value (cmds : List Command) (m : Nat) (V0 : Int)
    (hnz : cmds.all Command.factorNonzero = true) (h : m ≤ cmds.length) :
    (CommandManager.undoCheckedN m
        (CommandManager.runAll ⟨V0, [], []⟩ cmds)).map
        (fun s => (CommandManager.redo^[m] s).value)
      = some (CommandManager.runAll ⟨V0, [], []⟩ cmds).value := by
  have hstack : (CommandManager.runAll ⟨V0, [], []⟩ cmds).undoStack.all
      Command.factorNonzero = true := by
    rw [runAll_closed]
    simpa [List.all_append, List.all_reverse] using hnz
  rw [undoCheckedN_eq_iterate m _ hstack, Option.map_some',
    roundtrip_value_of_runAll cmds m V0 h]

/-- Witness for C2 at the concrete sequence [Add 5, Multiply 2] with
one undo and one redo from start value 10. -/
theorem undo_redo_checked_roundtrip_value_witness :
    (([Command.addCommand 5, Command.multiplyCommand 2] : List Command).all
        Command.factorNonzero = true) ∧
    1 ≤ ([Command.addCommand 5, Command.multiplyCommand 2] : List Command).length ∧
    (CommandManager.undoCheckedN 1
        (CommandManager.runAll ⟨10, [], []⟩
          [Command.addCommand 5, Command.multiplyCommand 2])).map
        (fun s => (CommandManager.redo^[1] s).value)
      = some (CommandManager.runAll ⟨10, [], []⟩
          [Command.addCommand 5, Command.multiplyCommand 2]).value :=
  ⟨by decide, by decide, undo_redo_checked_roundtrip_value
    [Command.addCommand 5, Command.multiplyCommand 2] 1 10 (by decide) (by decide)⟩

/-- Claim C5 counterexample: for `MultiplyCommand(0)` on target value
10, undo right after execute yields 0, not 10: the pair is not an exact
inverse for factor 0 (in C++ the undo divides by zero). -/
theorem command_roundtrip_mul_zero_fails :
    (Command.multiplyCommand 0).undo ((Command.multiplyCommand 0).execute 10) ≠ 10 := by
  decide

/-- Claim C5 (amended): for every `AddCommand` and every
`MultiplyCommand` with factor ≠ 0, calling `undo` right after `execute`
restores the target to the value it had before: (v + a) - a = v and
(v * f) / f = v under C++ truncating division. -/
theorem command_roundtrip_restores (c : Command) (v : Int)
    (h : c.factorNonzero = true) :
    c.undo (c.execute v) = v :=
  Command.undo_execute_of_factorNonzero c v h

/-- Witness for C5 at `MultiplyCommand(2)` and target value 7. -/
theorem command_roundtrip_restores_witness :
    (Command.multiplyCommand 2).factorNonzero = true ∧
    (Command.multiplyCommand 2).undo ((Command.multiplyCommand 2).execute 7) = 7 :=
  ⟨by decide, command_roundtrip_restores (Command.multiplyCommand 2) 7 (by decide)⟩

/-- Claim C9: `MultiplyCommand::undo` divides the target by `factor`
with no guard; under the precondition factor ≠ 0 the guarded division
succeeds and agrees with the unguarded one, and the paired
execute/undo round-trip is exact, so the division-by-zero error case is
unreachable. -/
theorem multiply_undo_division_welldefined (v f : Int) (h : f ≠ 0) :
    checkedDiv v f = some ((Command.multiplyCommand f).undo v) ∧
    (Command.multiplyCommand f).undo ((Command.multiplyCommand f).execute v) = v := by
  constructor
  · simp [checkedDiv, h, Command.undo]
  · simp [Command.execute, Command.undo, Int.mul_tdiv_cancel v h]

/-- Witness for C9 at v = 7, factor = 2. -/
theorem multiply_undo_division_welldefined_witness :
    (2 : Int) ≠ 0 ∧
    (checkedDiv 7 2 = some ((Command.multiplyCommand 2).undo 7) ∧
     (Command.multiplyCommand 2).undo ((Command.multiplyCommand 2).execute 7) = 7) :=
  ⟨by decide, multiply_undo_division_welldefined 7 2 (by decide)⟩
